import Mathlib

/-!
Verification of the feature & calendar engine of the seasonality repository
(`src/app.py`).  The engine is embedded shallowly:

* calendar dates are triples `(y, m, d)`; `Date.dayNumber` is the standard
  civil-calendar day count (proleptic Gregorian, the calendar implemented by
  Python's `datetime`), so date comparison and date arithmetic of the source
  become `Nat` comparison and arithmetic on day numbers;
* a pandas column becomes a function `Nat → α` from row position to value,
  with `Option` playing the role of NaN / missing values (NaN propagates
  through arithmetic, and comparisons such as `Series.gt(0)` are false on
  missing values, exactly as in pandas);
* prices are exact rationals; the embedding is exact for every claim proved
  here because all divisions performed by the source have nonzero
  denominators under the data-model precondition that present prices are
  positive (stated explicitly as a hypothesis where it matters).
-/

/-- A calendar date as stored in a price row: year, month (1–12), day. -/
structure Date where
  y : Nat
  m : Nat
  d : Nat
deriving DecidableEq, Repr

/-- Day count of a civil date (days since 0000-03-01 of the shifted calendar),
the standard era-based conversion; order and differences of `dayNumber`s agree
with order and day differences of `datetime.date` values for valid dates. -/
def Date.dayNumber (dt : Date) : Nat :=
  let yy := if dt.m ≤ 2 then dt.y - 1 else dt.y
  let era := yy / 400
  let yoe := yy % 400
  let mp := if 2 < dt.m then dt.m - 3 else dt.m + 9
  let doy := (153 * mp + 2) / 5 + dt.d - 1
  era * 146097 + (yoe * 365 + yoe / 4 - yoe / 100 + doy)

/-- Inverse civil conversion: day count back to `(year, month, day)`.
Used only to read the calendar year of a day number (ISO week-year). -/
def civilFromDayNumber (z : Nat) : Nat × Nat × Nat :=
  let era := z / 146097
  let doe := z % 146097
  let yoe := (doe - doe / 1460 + doe / 36524 - doe / 146096) / 365
  let yy := yoe + era * 400
  let doy := doe - (365 * yoe + yoe / 4 - yoe / 100)
  let mp := (5 * doy + 2) / 153
  let dd := doy - (153 * mp + 2) / 5 + 1
  let mm := if mp < 10 then mp + 3 else mp - 9
  (if mm ≤ 2 then yy + 1 else yy, mm, dd)

/-- `datetime.weekday()`: Monday = 0 … Sunday = 6, as a function of the day
number (1970-01-01, day number 719468, is a Thursday). -/
def pyWeekday (z : Nat) : Nat := (z + 2) % 7

/-- `pandas isocalendar().year`: the calendar year of the Thursday of the ISO
week (ISO weeks run Monday–Sunday) containing the given day. -/
def isoWeekYear (z : Nat) : Nat := (civilFromDayNumber (z + 3 - pyWeekday z)).1

/-- `third_friday(year, month)` from `compute_features`: the first day of the
month, advanced to the first Friday (`(4 - first.weekday()) % 7` days, written
here as `(11 - w) % 7` which agrees with Python's modulus for `w ≤ 6`), plus
14 days.  Returned as a day number. -/
def thirdFriday (y m : Nat) : Nat :=
  let first := Date.dayNumber ⟨y, m, 1⟩
  let w := pyWeekday first
  first + (11 - w) % 7 + 14

/-- `prev_month`/`prev_year` arithmetic of `compute_features`:
`prev_month = ((month - 1 - 1) % 12) + 1` with Python's nonnegative modulus,
`prev_year = year - (1 if month - 1 < 1 else 0)`. -/
def prevMonthOf (y m : Nat) : Nat × Nat :=
  (if m ≤ 1 then y - 1 else y, ((((m : Int) - 2).emod 12) + 1).toNat)

/-- `next_month`/`next_year` arithmetic of `compute_features`. -/
def nextMonthOf (y m : Nat) : Nat × Nat :=
  (if 12 < m + 1 then y + 1 else y, (m + 1 - 1) % 12 + 1)

/-- `quarter_month = ((month - 1) // 3 + 1) * 3`: the quarter-ending month. -/
def quarterMonthOf (m : Nat) : Nat := ((m - 1) / 3 + 1) * 3

/-- `prev_quarter_month`/`prev_quarter_year` arithmetic of `compute_features`. -/
def prevQuarterOf (y qm : Nat) : Nat × Nat :=
  (if qm ≤ 3 then y - 1 else y, ((((qm : Int) - 4).emod 12) + 1).toNat)

/-- `next_quarter_month`/`next_quarter_year` arithmetic of `compute_features`. -/
def nextQuarterOf (y qm : Nat) : Nat × Nat :=
  (if 12 < qm + 3 then y + 1 else y, (qm + 3 - 1) % 12 + 1)

/-- One row of the `prices` table: a calendar date and the OHLCV values;
`none` is a NULL / NaN price. -/
structure Bar where
  date : Date
  open_ : Option ℚ
  high : Option ℚ
  low : Option ℚ
  close : Option ℚ
  volume : Option Int
deriving DecidableEq, Repr

/-- Row accessed positionally; positions past the end give an all-missing
bar (only positions below the length are ever relevant). -/
def barAt (s : List Bar) (t : Nat) : Bar :=
  s.getD t ⟨⟨1, 1, 1⟩, none, none, none, none, none⟩

def dnum (s : List Bar) (t : Nat) : Nat := (barAt s t).date.dayNumber

def yearAt (s : List Bar) (t : Nat) : Nat := (barAt s t).date.y

def monthAt (s : List Bar) (t : Nat) : Nat := (barAt s t).date.m

/-- `trimester = (month - 1) // 4 + 1` (4-month buckets). -/
def trimesterAt (s : List Bar) (t : Nat) : Nat := (monthAt s t - 1) / 4 + 1

/-- `semester = (month - 1) // 6 + 1`. -/
def semesterAt (s : List Bar) (t : Nat) : Nat := (monthAt s t - 1) / 6 + 1

def openCol (s : List Bar) (t : Nat) : Option ℚ := (barAt s t).open_

def highCol (s : List Bar) (t : Nat) : Option ℚ := (barAt s t).high

def lowCol (s : List Bar) (t : Nat) : Option ℚ := (barAt s t).low

def closeCol (s : List Bar) (t : Nat) : Option ℚ := (barAt s t).close

/-- `groupby(key).cumcount()`: the number of earlier rows carrying the same
group key as row `t`. -/
def cumcountKey {α : Type} [DecidableEq α] (key : Nat → α) (t : Nat) : Nat :=
  ((Finset.range t).filter fun u => key u = key t).card

/-- `groupby(key)[...].transform("size")`: the number of rows of the whole
series (of length `n`) carrying the same group key as row `t`. -/
def sizeKey {α : Type} [DecidableEq α] (key : Nat → α) (n t : Nat) : Nat :=
  ((Finset.range n).filter fun u => key u = key t).card

/-- `frame["trading day"]`: `groupby(year).cumcount() + 1`. -/
def tradingDay (s : List Bar) (t : Nat) : Nat := cumcountKey (yearAt s) t + 1

def ymKey (s : List Bar) (t : Nat) : Nat × Nat := (yearAt s t, monthAt s t)

def ytKey (s : List Bar) (t : Nat) : Nat × Nat := (yearAt s t, trimesterAt s t)

def ysKey (s : List Bar) (t : Nat) : Nat × Nat := (yearAt s t, semesterAt s t)

/-- `frame["trading day of the month"]`. -/
def tdMonth (s : List Bar) (t : Nat) : Nat := cumcountKey (ymKey s) t + 1

/-- `frame["remaining trading days in the month"]` = month size − ordinal. -/
def remMonth (s : List Bar) (t : Nat) : Nat :=
  sizeKey (ymKey s) s.length t - tdMonth s t

/-- `frame["trading day of the trimester"]`. -/
def tdTrimester (s : List Bar) (t : Nat) : Nat := cumcountKey (ytKey s) t + 1

/-- `frame["remaining trading days in the trimester"]`. -/
def remTrimester (s : List Bar) (t : Nat) : Nat :=
  sizeKey (ytKey s) s.length t - tdTrimester s t

/-- `frame["trading day of the semester"]`. -/
def tdSemester (s : List Bar) (t : Nat) : Nat := cumcountKey (ysKey s) t + 1

/-- `frame["remaining trading days in the semester"]`. -/
def remSemester (s : List Bar) (t : Nat) : Nat :=
  sizeKey (ysKey s) s.length t - tdSemester s t

/-- `(a / b - 1) * 100` on possibly-missing operands: missing if either
operand is missing, as for pandas float arithmetic on NaN. -/
def ratioCell (a b : Option ℚ) : Option ℚ :=
  match a, b with
  | some x, some yv => some ((x / yv - 1) * 100)
  | _, _ => none

/-- `Series.shift(p)` for `p ≥ 0`: missing in the first `p` positions. -/
def shiftB (c : Nat → Option ℚ) (p t : Nat) : Option ℚ :=
  if p ≤ t then c (t - p) else none

/-- `Series.shift(-p)` on a series of length `n`: missing in the last `p`
positions. -/
def shiftF (c : Nat → Option ℚ) (n p t : Nat) : Option ℚ :=
  if t + p < n then c (t + p) else none

/-- `frame["cc"] = (close / close.shift(1) - 1) * 100`. -/
def ccCol (s : List Bar) (t : Nat) : Option ℚ :=
  ratioCell (closeCol s t) (shiftB (closeCol s) 1 t)

/-- `frame["oc"] = (close / open - 1) * 100`. -/
def ocCol (s : List Bar) (t : Nat) : Option ℚ :=
  ratioCell (closeCol s t) (openCol s t)

/-- `frame["co"] = (open / close.shift(1) - 1) * 100`. -/
def coCol (s : List Bar) (t : Nat) : Option ℚ :=
  ratioCell (openCol s t) (shiftB (closeCol s) 1 t)

/-- `oo = (open / open.shift(1) - 1) * 100` (internal streak input). -/
def ooCol (s : List Bar) (t : Nat) : Option ℚ :=
  ratioCell (openCol s t) (shiftB (openCol s) 1 t)

/-- `hh = (high / high.shift(1) - 1) * 100` (internal streak input). -/
def hhCol (s : List Bar) (t : Nat) : Option ℚ :=
  ratioCell (highCol s t) (shiftB (highCol s) 1 t)

/-- `ll = (low / low.shift(1) - 1) * 100` (internal streak input). -/
def llCol (s : List Bar) (t : Nat) : Option ℚ :=
  ratioCell (lowCol s t) (shiftB (lowCol s) 1 t)

/-- `frame["cc -p"] = close.pct_change(p) * 100`. -/
def ccBack (s : List Bar) (p t : Nat) : Option ℚ :=
  ratioCell (closeCol s t) (shiftB (closeCol s) p t)

/-- `frame["cc +p"] = close.pct_change(-p) * 100`. -/
def ccFwd (s : List Bar) (p t : Nat) : Option ℚ :=
  ratioCell (closeCol s t) (shiftF (closeCol s) s.length p t)

/-- The horizon list of `compute_features`. -/
def horizons : List Nat := [2, 3, 4, 5, 6, 7, 8, 9, 10, 21, 30, 42, 63, 84, 105, 126]

/-- `mask != mask.shift()` of `compute_streaks`: true at row 0 (a boolean
compared with the shifted-in NaN is unequal), and at later rows exactly when
the mask changed. -/
def changedMask (mask : Nat → Bool) (t : Nat) : Bool :=
  if t = 0 then true else mask t != mask (t - 1)

/-- `(mask != mask.shift()).cumsum()`: the run identifier of row `t`. -/
def runId (mask : Nat → Bool) (t : Nat) : Nat :=
  ((Finset.range (t + 1)).filter fun u => changedMask mask u = true).card

/-- `mask.groupby(runId).cumcount()`: earlier rows with the same run id. -/
def cumcountRun (mask : Nat → Bool) (t : Nat) : Nat :=
  ((Finset.range t).filter fun u => runId mask u = runId mask t).card

/-- `compute_mask_streaks`: `(cumcount + 1).where(mask, 0)`. -/
def computeMaskStreaks (mask : Nat → Bool) (t : Nat) : Nat :=
  if mask t then cumcountRun mask t + 1 else 0

/-- `series.gt(0)` / `series.lt(0)`: false on missing values. -/
def condOf (r : Nat → Option ℚ) (positive : Bool) (t : Nat) : Bool :=
  match r t with
  | some v => if positive then decide (0 < v) else decide (v < 0)
  | none => false

/-- `compute_streaks(series, positive)`: streaks of `series.gt(0)` (bullish)
or `series.lt(0)` (bearish). -/
def computeStreaks (r : Nat → Option ℚ) (positive : Bool) (t : Nat) : Nat :=
  computeMaskStreaks (condOf r positive) t

def bullishRunOo (s : List Bar) (t : Nat) : Nat := computeStreaks (ooCol s) true t

def bullishRunOc (s : List Bar) (t : Nat) : Nat := computeStreaks (ocCol s) true t

def bullishRunHh (s : List Bar) (t : Nat) : Nat := computeStreaks (hhCol s) true t

def bullishRunLl (s : List Bar) (t : Nat) : Nat := computeStreaks (llCol s) true t

def bearishRunOo (s : List Bar) (t : Nat) : Nat := computeStreaks (ooCol s) false t

def bearishRunOc (s : List Bar) (t : Nat) : Nat := computeStreaks (ocCol s) false t

def bearishRunHh (s : List Bar) (t : Nat) : Nat := computeStreaks (hhCol s) false t

def bearishRunLl (s : List Bar) (t : Nat) : Nat := computeStreaks (llCol s) false t

/-- Running maximum of the present values of a column up to row `t`
(the skip-NaN accumulator behind `Series.cummax()`). -/
def cummaxAux (v : Nat → Option ℚ) : Nat → Option ℚ
  | 0 => v 0
  | t + 1 =>
    match cummaxAux v t, v (t + 1) with
    | some a, some b => some (max a b)
    | some a, none => some a
    | none, x => x

/-- `Series.cummax()`: missing where the value is missing, otherwise the
maximum of the present values so far. -/
def cummax (v : Nat → Option ℚ) (t : Nat) : Option ℚ :=
  match v t with
  | none => none
  | some _ => cummaxAux v t

/-- `value.eq(value.cummax())`: equality is false when either side is
missing, as for pandas `.eq` on NaN. -/
def athFlag (v : Nat → Option ℚ) (t : Nat) : Bool :=
  match v t, cummax v t with
  | some a, some b => decide (a = b)
  | _, _ => false

def athOpen (s : List Bar) (t : Nat) : Bool := athFlag (openCol s) t

def athHigh (s : List Bar) (t : Nat) : Bool := athFlag (highCol s) t

def athClose (s : List Bar) (t : Nat) : Bool := athFlag (closeCol s) t

def consAthOpen (s : List Bar) (t : Nat) : Nat :=
  computeMaskStreaks (athFlag (openCol s)) t

def consAthHigh (s : List Bar) (t : Nat) : Nat :=
  computeMaskStreaks (athFlag (highCol s)) t

def consAthClose (s : List Bar) (t : Nat) : Nat :=
  computeMaskStreaks (athFlag (closeCol s)) t

/-- The date column as day numbers (`frame["date"].values.astype("datetime64[D]")`). -/
def datesOf (s : List Bar) : List Nat := s.map fun b => b.date.dayNumber

/-- `np.searchsorted(dates, x, side="left")` on an ascending date array:
the leftmost position whose date is at or after `x` (the length if none). -/
def searchsortedLeft (ds : List Nat) (x : Nat) : Nat :=
  ds.findIdx fun dv => decide (x ≤ dv)

/-- `current_tw`: the third Friday of the row's own month. -/
def currentTW (s : List Bar) (t : Nat) : Nat :=
  thirdFriday (yearAt s t) (monthAt s t)

/-- `next_tw` ("3 🧙 date" before formatting): the row-month's third Friday if
the row's date is at or before it, else the next month's third Friday. -/
def nextTWd (s : List Bar) (t : Nat) : Nat :=
  if dnum s t ≤ currentTW s t then currentTW s t
  else thirdFriday (nextMonthOf (yearAt s t) (monthAt s t)).1
    (nextMonthOf (yearAt s t) (monthAt s t)).2

/-- `prev_tw`: the previous month's third Friday if the row's date is at or
before the row-month's third Friday, else the row-month's third Friday. -/
def prevTWd (s : List Bar) (t : Nat) : Nat :=
  if dnum s t ≤ currentTW s t then
    thirdFriday (prevMonthOf (yearAt s t) (monthAt s t)).1
      (prevMonthOf (yearAt s t) (monthAt s t)).2
  else currentTW s t

/-- `next_positions` with its `-1` sentinel for "past the end" as `none`. -/
def nextPos (s : List Bar) (t : Nat) : Option Nat :=
  let p := searchsortedLeft (datesOf s) (nextTWd s t)
  if s.length ≤ p then none else some p

def prevPos (s : List Bar) (t : Nat) : Option Nat :=
  let p := searchsortedLeft (datesOf s) (prevTWd s t)
  if s.length ≤ p then none else some p

/-- `trading days remaining before 3 🧙` = `max(next_position − t, 0)`,
missing when the expiration position is past the end of the series
(truncated `Nat` subtraction is exactly the `np.maximum(…, 0)`). -/
def remaining3 (s : List Bar) (t : Nat) : Option Nat :=
  (nextPos s t).map fun p => p - t

/-- `trading days elapsed since 3 🧙` = `max(t − prev_position, 0)`. -/
def elapsed3 (s : List Bar) (t : Nat) : Option Nat :=
  (prevPos s t).map fun p => t - p

/-- `current_q_tw`: the third Friday of the row's quarter-ending month. -/
def currentQTW (s : List Bar) (t : Nat) : Nat :=
  thirdFriday (yearAt s t) (quarterMonthOf (monthAt s t))

/-- `next_q_tw` ("4 🧙 date" before formatting). -/
def nextQTWd (s : List Bar) (t : Nat) : Nat :=
  if dnum s t ≤ currentQTW s t then currentQTW s t
  else thirdFriday (nextQuarterOf (yearAt s t) (quarterMonthOf (monthAt s t))).1
    (nextQuarterOf (yearAt s t) (quarterMonthOf (monthAt s t))).2

/-- `prev_q_tw`. -/
def prevQTWd (s : List Bar) (t : Nat) : Nat :=
  if dnum s t ≤ currentQTW s t then
    thirdFriday (prevQuarterOf (yearAt s t) (quarterMonthOf (monthAt s t))).1
      (prevQuarterOf (yearAt s t) (quarterMonthOf (monthAt s t))).2
  else currentQTW s t

def nextQPos (s : List Bar) (t : Nat) : Option Nat :=
  let p := searchsortedLeft (datesOf s) (nextQTWd s t)
  if s.length ≤ p then none else some p

def prevQPos (s : List Bar) (t : Nat) : Option Nat :=
  let p := searchsortedLeft (datesOf s) (prevQTWd s t)
  if s.length ≤ p then none else some p

/-- `trading days remaining before 4 🧙`. -/
def remaining4 (s : List Bar) (t : Nat) : Option Nat :=
  (nextQPos s t).map fun p => p - t

/-- `trading days elapsed since 4 🧙`. -/
def elapsed4 (s : List Bar) (t : Nat) : Option Nat :=
  (prevQPos s t).map fun p => t - p

/-- One row of the enriched feature table (the columns of `compute_features`
formalised in this development; the date-string formatting and column
reordering of the source are identity transformations on this data). -/
structure FeatureRow where
  date : Date
  weekday : Nat
  year : Nat
  semester : Nat
  trimester : Nat
  month : Nat
  tradingDay : Nat
  tdMonth : Nat
  remMonth : Nat
  tdTrimester : Nat
  remTrimester : Nat
  tdSemester : Nat
  remSemester : Nat
  nextTW : Nat
  remaining3 : Option Nat
  elapsed3 : Option Nat
  nextQTW : Nat
  remaining4 : Option Nat
  elapsed4 : Option Nat
  cc : Option ℚ
  oc : Option ℚ
  co : Option ℚ
  bullishOo : Nat
  bullishOc : Nat
  bullishHh : Nat
  bullishLl : Nat
  bearishOo : Nat
  bearishOc : Nat
  bearishHh : Nat
  bearishLl : Nat
  athOpen : Bool
  athHigh : Bool
  athClose : Bool
  consAthOpen : Nat
  consAthHigh : Nat
  consAthClose : Nat
  ccBackCols : List (Option ℚ)
  ccFwdCols : List (Option ℚ)

def featureRowAt (s : List Bar) (t : Nat) : FeatureRow where
  date := (barAt s t).date
  weekday := pyWeekday (dnum s t)
  year := yearAt s t
  semester := semesterAt s t
  trimester := trimesterAt s t
  month := monthAt s t
  tradingDay := tradingDay s t
  tdMonth := tdMonth s t
  remMonth := remMonth s t
  tdTrimester := tdTrimester s t
  remTrimester := remTrimester s t
  tdSemester := tdSemester s t
  remSemester := remSemester s t
  nextTW := nextTWd s t
  remaining3 := remaining3 s t
  elapsed3 := elapsed3 s t
  nextQTW := nextQTWd s t
  remaining4 := remaining4 s t
  elapsed4 := elapsed4 s t
  cc := ccCol s t
  oc := ocCol s t
  co := coCol s t
  bullishOo := bullishRunOo s t
  bullishOc := bullishRunOc s t
  bullishHh := bullishRunHh s t
  bullishLl := bullishRunLl s t
  bearishOo := bearishRunOo s t
  bearishOc := bearishRunOc s t
  bearishHh := bearishRunHh s t
  bearishLl := bearishRunLl s t
  athOpen := athOpen s t
  athHigh := athHigh s t
  athClose := athClose s t
  consAthOpen := consAthOpen s t
  consAthHigh := consAthHigh s t
  consAthClose := consAthClose s t
  ccBackCols := horizons.map fun p => ccBack s p t
  ccFwdCols := horizons.map fun p => ccFwd s p t

/-- `compute_features`: the empty frame is returned untransformed, otherwise
every row is enriched. -/
def computeFeatures (s : List Bar) : List FeatureRow :=
  if s.isEmpty then [] else (List.range s.length).map fun t => featureRowAt s t

/-- `pd.to_numeric(close).dropna()`: rows whose close is present (the pivot
builders drop the others before aggregating). -/
def dropNaClose (s : List Bar) : List Bar := s.filter fun b => b.close.isSome

/-- The close of a filtered row as a rational (every filtered row has one). -/
def clo (b : Bar) : ℚ := b.close.getD 0

/-- The `(year, month)` group of the monthly pivot, in series (= date) order. -/
def monthGroup (fd : List Bar) (y m : Nat) : List Bar :=
  fd.filter fun b => b.date.y = y ∧ b.date.m = m

/-- One cell of the monthly pivot: `(last / first - 1) * 100` over the
`(year, month)` group, missing when the group is empty. -/
def cellMonthly (fd : List Bar) (y m : Nat) : Option ℚ :=
  match monthGroup fd y m with
  | [] => none
  | b :: bs => some ((clo (bs.getLastD b) / clo b - 1) * 100)

/-- The `month_names` list of `compute_monthly_performance`. -/
def monthNames : List String :=
  ["Jan", "Feb", "Mar", "Apr", "May", "Jun",
   "Jul", "Aug", "Sep", "Oct", "Nov", "Dec"]

/-- The years present in the data, ascending (the pivot's column index after
`sort_index(axis=1)`). -/
def yearsOf (fd : List Bar) : List Nat :=
  ((fd.map fun b => b.date.y).toFinset).sort (· ≤ ·)

/-- The monthly pivot: row labels (always the 12 month names after
`reindex(range(1, 13))`), year columns ascending, and the cell table. -/
structure MonthlyPivot where
  rows : List String
  years : List Nat
  cell : Nat → Nat → Option ℚ

/-- `compute_monthly_performance`; `none` models the two early returns that
hand back the (empty) input frame untransformed. -/
def computeMonthlyPerformance (s : List Bar) : Option MonthlyPivot :=
  if s.isEmpty then none
  else if (dropNaClose s).isEmpty then none
  else some ⟨monthNames, yearsOf (dropNaClose s),
    fun y m => cellMonthly (dropNaClose s) y m⟩

/-- Weekday of a filtered row (0 = monday … 6 = sunday, the numeric image of
the lowercase `day_name()` strings). -/
def wdAt (fd : List Bar) (t : Nat) : Nat := pyWeekday (dnum fd t)

/-- ISO week-year of a filtered row (`isocalendar().year`). -/
def wyAt (fd : List Bar) (t : Nat) : Nat := isoWeekYear (dnum fd t)

/-- Latest earlier row (searching down from `k`) whose key equals `target`;
`none` if there is none. -/
def prevIdxSame (f : Nat → Nat) (target : Nat) : Nat → Option Nat
  | 0 => none
  | k + 1 => if f k = target then some k else prevIdxSame f target k

/-- The previous row of the same weekday, anywhere earlier in the series
(`groupby("weekday")` chains across week-year and quarter boundaries). -/
def prevSameWd (fd : List Bar) (t : Nat) : Option Nat :=
  prevIdxSame (wdAt fd) (wdAt fd t) t

/-- `data.groupby("weekday")["close"].pct_change() * 100`: the percent change
of close from the same weekday's prior observation, missing for the first
observation of each weekday group. -/
def perfWd (fd : List Bar) (t : Nat) : Option ℚ :=
  match prevSameWd fd t with
  | none => none
  | some u => some ((clo (barAt fd t) / clo (barAt fd u) - 1) * 100)

/-- One cell of the weekday pivot: the mean of the defined per-row returns of
the `(weekday, ISO-week-year)` group (pandas `mean` skips NaN; a group whose
returns are all missing, or an empty group, gives a missing cell). -/
def cellWeekday (fd : List Bar) (w wy : Nat) : Option ℚ :=
  let idx := (List.range fd.length).filter fun t => wdAt fd t = w ∧ wyAt fd t = wy
  let vals := idx.filterMap fun t => perfWd fd t
  if vals.isEmpty then none else some (vals.sum / vals.length)

/-- The weekday row order of the pivots (monday … friday). -/
def weekdayOrder : List Nat := [0, 1, 2, 3, 4]

/-- ISO week-years present in the data, ascending. -/
def weekYearsOf (fd : List Bar) : List Nat :=
  (((List.range fd.length).map fun t => wyAt fd t).toFinset).sort (· ≤ ·)

structure WeekdayPivot where
  rows : List Nat
  cols : List Nat
  cell : Nat → Nat → Option ℚ

/-- `compute_weekday_performance`; `none` models the early returns of the
empty input / all-missing-close cases. -/
def computeWeekdayPerformance (s : List Bar) : Option WeekdayPivot :=
  if s.isEmpty then none
  else if (dropNaClose s).isEmpty then none
  else some ⟨weekdayOrder, weekYearsOf (dropNaClose s),
    fun w wy => cellWeekday (dropNaClose s) w wy⟩

/-- Quarter label of a filtered row, encoded order-isomorphically to the
`"YYYYQn"` strings of `to_period("Q")`: `year * 4 + (quarter - 1)`. -/
def qlabelAt (fd : List Bar) (t : Nat) : Nat :=
  yearAt fd t * 4 + ((monthAt fd t - 1) / 3 + 1) - 1

/-- One cell of the weekday-by-quarter pivot (same per-weekday returns,
averaged per `(weekday, quarter)` group). -/
def cellWeekdayQ (fd : List Bar) (w q : Nat) : Option ℚ :=
  let idx := (List.range fd.length).filter fun t => wdAt fd t = w ∧ qlabelAt fd t = q
  let vals := idx.filterMap fun t => perfWd fd t
  if vals.isEmpty then none else some (vals.sum / vals.length)

/-- Quarter labels present in the data, chronological. -/
def quartersOf (fd : List Bar) : List Nat :=
  (((List.range fd.length).map fun t => qlabelAt fd t).toFinset).sort (· ≤ ·)

/-- `compute_weekday_performance_by_quarter`. -/
def computeWeekdayPerformanceByQuarter (s : List Bar) : Option WeekdayPivot :=
  if s.isEmpty then none
  else if (dropNaClose s).isEmpty then none
  else some ⟨weekdayOrder, quartersOf (dropNaClose s),
    fun w q => cellWeekdayQ (dropNaClose s) w q⟩

/-- A positive-price series: every present open/high/low/close value is
positive (the data-model invariant on price bars). -/
def PosSeries (s : List Bar) : Prop :=
  ∀ t, t < s.length →
    (∀ a, openCol s t = some a → 0 < a) ∧
    (∀ a, highCol s t = some a → 0 < a) ∧
    (∀ a, lowCol s t = some a → 0 < a) ∧
    (∀ a, closeCol s t = some a → 0 < a)

/-- The series is strictly ascending by date (the data-model invariant; the
pivot builders' `sort_values("date")` is then the identity). -/
def SortedSeries (s : List Bar) : Prop :=
  List.Pairwise (fun a b => a.date.dayNumber < b.date.dayNumber) s

/-- Every bar carries a well-formed calendar date (year at least 1, month in
1–12, day at least 1). -/
def ValidSeries (s : List Bar) : Prop :=
  ∀ b ∈ s, 1 ≤ b.date.y ∧ 1 ≤ b.date.m ∧ b.date.m ≤ 12 ∧ 1 ≤ b.date.d

/-- A bar with all prices present. -/
def mkBar (y m d : Nat) (o hi lo c : ℚ) : Bar :=
  ⟨⟨y, m, d⟩, some o, some hi, some lo, some c, none⟩

/-- One bar per weekday from 2024-01-02 through 2024-01-31 (the scenario of
the expiration-search property). -/
def janSeries : List Bar :=
  [mkBar 2024 1 2 1 1 1 1, mkBar 2024 1 3 1 1 1 1, mkBar 2024 1 4 1 1 1 1,
   mkBar 2024 1 5 1 1 1 1, mkBar 2024 1 8 1 1 1 1, mkBar 2024 1 9 1 1 1 1,
   mkBar 2024 1 10 1 1 1 1, mkBar 2024 1 11 1 1 1 1, mkBar 2024 1 12 1 1 1 1,
   mkBar 2024 1 15 1 1 1 1, mkBar 2024 1 16 1 1 1 1, mkBar 2024 1 17 1 1 1 1,
   mkBar 2024 1 18 1 1 1 1, mkBar 2024 1 19 1 1 1 1, mkBar 2024 1 22 1 1 1 1,
   mkBar 2024 1 23 1 1 1 1, mkBar 2024 1 24 1 1 1 1, mkBar 2024 1 25 1 1 1 1,
   mkBar 2024 1 26 1 1 1 1, mkBar 2024 1 29 1 1 1 1, mkBar 2024 1 30 1 1 1 1,
   mkBar 2024 1 31 1 1 1 1]

/-- Monday 2023-12-25 (ISO week-year 2023), Friday 2024-01-05 and Monday
2024-01-08 (both ISO week-year 2024): the weekday-pivot counterexample. -/
def mondaySeries : List Bar :=
  [mkBar 2023 12 25 100 100 100 100, mkBar 2024 1 5 105 105 105 105,
   mkBar 2024 1 8 110 110 110 110]

/-- A Friday immediately followed by the first Monday of the series. -/
def fridayMondaySeries : List Bar :=
  [mkBar 2024 1 5 105 105 105 105, mkBar 2024 1 8 110 110 110 110]

/-- Closes 100 on 2023-01-02 and 110 on 2023-01-31 (the monthly-pivot
scenario). -/
def jan23Series : List Bar :=
  [mkBar 2023 1 2 100 101 99 100, mkBar 2023 1 31 109 111 108 110]

/-- A small three-bar series with mixed moves, used to witness the
universally quantified theorems. -/
def demoSeries : List Bar :=
  [mkBar 2024 1 2 10 12 9 11, mkBar 2024 1 3 11 13 10 12,
   mkBar 2024 1 4 9 12 8 10]

lemma changedMask_succ (mask : Nat → Bool) (t : Nat) :
    changedMask mask (t + 1) = (mask (t + 1) != mask t) := by
  simp [changedMask]

lemma runId_succ (mask : Nat → Bool) (t : Nat) :
    runId mask (t + 1) =
      runId mask t + (if changedMask mask (t + 1) = true then 1 else 0) := by
  unfold runId
  rw [Finset.range_succ, Finset.filter_insert]
  by_cases h : changedMask mask (t + 1) = true
  · rw [if_pos h, if_pos h, Finset.card_insert_of_not_mem (by simp)]
  · rw [if_neg h, if_neg h]
    exact (Nat.add_zero _).symm

lemma runId_mono (mask : Nat → Bool) {u v : Nat} (h : u ≤ v) :
    runId mask u ≤ runId mask v :=
  Finset.card_le_card
    (Finset.filter_subset_filter _ (Finset.range_subset.2 (by omega)))

lemma cumcountRun_zero (mask : Nat → Bool) : cumcountRun mask 0 = 0 := by
  simp [cumcountRun]

lemma cumcountRun_succ_of_same (mask : Nat → Bool) (t : Nat)
    (h : changedMask mask (t + 1) = false) :
    cumcountRun mask (t + 1) = cumcountRun mask t + 1 := by
  have hid : runId mask (t + 1) = runId mask t := by
    rw [runId_succ]; simp [h]
  unfold cumcountRun
  simp only [hid]
  rw [Finset.range_succ, Finset.filter_insert, if_pos rfl,
    Finset.card_insert_of_not_mem (by simp)]

lemma cumcountRun_succ_of_changed (mask : Nat → Bool) (t : Nat)
    (h : changedMask mask (t + 1) = true) :
    cumcountRun mask (t + 1) = 0 := by
  have hid : runId mask (t + 1) = runId mask t + 1 := by
    rw [runId_succ]; simp [h]
  unfold cumcountRun
  rw [Finset.card_eq_zero, Finset.filter_eq_empty_iff]
  intro u hu
  have hle : runId mask u ≤ runId mask t :=
    runId_mono mask (by have := Finset.mem_range.1 hu; omega)
  omega

/-- The streak contract of the claims: zero on a false condition, one at the
start of a run, previous streak plus one inside a run. -/
def StreakSpec (cond : Nat → Bool) (streak : Nat → Nat) : Prop :=
  ∀ t,
    (cond t = false → streak t = 0) ∧
    (cond t = true → (t = 0 ∨ cond (t - 1) = false) → streak t = 1) ∧
    (∀ u, t = u + 1 → cond t = true → cond u = true →
      streak t = streak u + 1)

lemma computeMaskStreaks_spec (mask : Nat → Bool) :
    StreakSpec mask (computeMaskStreaks mask) := by
  intro t
  refine ⟨fun hf => by simp [computeMaskStreaks, hf], fun ht h0 => ?_, ?_⟩
  · cases t with
    | zero => simp [computeMaskStreaks, ht, cumcountRun_zero]
    | succ u =>
      have hu : mask u = false := by
        rcases h0 with h0 | h0
        · omega
        · simpa using h0
      have hch : changedMask mask (u + 1) = true := by
        rw [changedMask_succ, ht, hu]; rfl
      simp [computeMaskStreaks, ht, cumcountRun_succ_of_changed mask u hch]
  · intro u hu ht hmu
    subst hu
    have hch : changedMask mask (u + 1) = false := by
      rw [changedMask_succ, ht, hmu]; rfl
    simp [computeMaskStreaks, ht, hmu, cumcountRun_succ_of_same mask u hch]

/-- Claim C2: for every input series, each of the eight run columns (bullish
and bearish runs over the oo, oc, hh, ll ratios) obeys the streak rule keyed
on its condition (`ratio > 0` for bullish, `ratio < 0` for bearish): 0 where
the condition is false, 1 where a run starts (first row or previous
condition false), previous streak plus one inside a run. -/
theorem c2_streak_recurrence (s : List Bar) :
    StreakSpec (condOf (ooCol s) true) (bullishRunOo s) ∧
    StreakSpec (condOf (ocCol s) true) (bullishRunOc s) ∧
    StreakSpec (condOf (hhCol s) true) (bullishRunHh s) ∧
    StreakSpec (condOf (llCol s) true) (bullishRunLl s) ∧
    StreakSpec (condOf (ooCol s) false) (bearishRunOo s) ∧
    StreakSpec (condOf (ocCol s) false) (bearishRunOc s) ∧
    StreakSpec (condOf (hhCol s) false) (bearishRunHh s) ∧
    StreakSpec (condOf (llCol s) false) (bearishRunLl s) :=
  ⟨computeMaskStreaks_spec _, computeMaskStreaks_spec _,
   computeMaskStreaks_spec _, computeMaskStreaks_spec _,
   computeMaskStreaks_spec _, computeMaskStreaks_spec _,
   computeMaskStreaks_spec _, computeMaskStreaks_spec _⟩

/-- Witness for C2 on the concrete demo series: the `oc` ratio is positive on
rows 0 and 1, so the bullish oc run reaches 2; the `oo` ratio turns negative
on row 2, so the bearish oo run starts there at 1. -/
theorem c2_streak_recurrence_witness :
    bullishRunOc demoSeries 1 = bullishRunOc demoSeries 0 + 1 ∧
    bearishRunOo demoSeries 2 = 1 := by
  have hoc0 : condOf (ocCol demoSeries) true 0 = true := by
    simp [condOf, ocCol, ratioCell, closeCol, openCol, barAt, demoSeries, mkBar]
    norm_num
  have hoc1 : condOf (ocCol demoSeries) true 1 = true := by
    simp [condOf, ocCol, ratioCell, closeCol, openCol, barAt, demoSeries, mkBar]
    norm_num
  have hoo2 : condOf (ooCol demoSeries) false 2 = true := by
    simp [condOf, ooCol, ratioCell, openCol, barAt, demoSeries, mkBar, shiftB]
    norm_num
  have hoo1f : condOf (ooCol demoSeries) false 1 = false := by
    simp [condOf, ooCol, ratioCell, openCol, barAt, demoSeries, mkBar, shiftB]
    norm_num
  exact ⟨((c2_streak_recurrence demoSeries).2.1 1).2.2 0 rfl hoc1 hoc0,
    ((c2_streak_recurrence demoSeries).2.2.2.2.1 2).2.1 hoo2
      (Or.inr hoo1f)⟩

lemma cummaxAux_isSome (v : Nat → Option ℚ) (t : Nat) (a : ℚ) (h : v t = some a) :
    ∃ m, cummaxAux v t = some m ∧ a ≤ m := by
  cases t with
  | zero => exact ⟨a, by simp [cummaxAux, h], le_refl a⟩
  | succ u =>
    unfold cummaxAux
    rw [h]
    cases hc : cummaxAux v u with
    | none => exact ⟨a, rfl, le_refl a⟩
    | some b => exact ⟨max b a, rfl, le_max_right b a⟩

lemma cummaxAux_mono (v : Nat → Option ℚ) {u t : Nat} (hut : u ≤ t) :
    ∀ a, cummaxAux v u = some a → ∃ b, cummaxAux v t = some b ∧ a ≤ b := by
  induction t, hut using Nat.le_induction with
  | base => exact fun a ha => ⟨a, ha, le_refl a⟩
  | succ t hut ih =>
    intro a ha
    obtain ⟨b, hb, hab⟩ := ih a ha
    unfold cummaxAux
    rw [hb]
    cases hv : v (t + 1) with
    | none => exact ⟨b, rfl, hab⟩
    | some c => exact ⟨max b c, rfl, le_trans hab (le_max_left b c)⟩

lemma cummax_mono (v : Nat → Option ℚ) {u t : Nat} (hut : u ≤ t) {a b : ℚ}
    (ha : cummax v u = some a) (hb : cummax v t = some b) : a ≤ b := by
  unfold cummax at ha hb
  cases hu : v u with
  | none => rw [hu] at ha; exact absurd ha (by simp)
  | some x =>
    rw [hu] at ha
    cases ht : v t with
    | none => rw [ht] at hb; exact absurd hb (by simp)
    | some yv =>
      rw [ht] at hb
      obtain ⟨b', hb', hab⟩ := cummaxAux_mono v hut a ha
      rw [hb'] at hb
      exact (Option.some_inj.1 hb) ▸ hab

lemma athFlag_iff (v : Nat → Option ℚ) (t : Nat) :
    athFlag v t = true ↔ ∃ a, v t = some a ∧ cummax v t = some a := by
  unfold athFlag cummax
  cases hv : v t with
  | none => simp
  | some a =>
    cases hm : cummaxAux v t with
    | none =>
      obtain ⟨m, hm', _⟩ := cummaxAux_isSome v t a hv
      rw [hm'] at hm
      exact absurd hm (by simp)
    | some m =>
      simp
      exact ⟨fun h => h.symm, fun h => h.symm⟩

/-- Claim C3: for every input series and each price field among open, high,
close: the running maximum (the `cummax` column) is non-decreasing over its
present values; the ATH flag is set exactly when the row's value equals the
running maximum through that row (ties count as ATH); and the consecutive-ATH
counter obeys the streak rule keyed on the ATH boolean. -/
theorem c3_ath_tracking (s : List Bar) (v : Nat → Option ℚ)
    (hv : v = openCol s ∨ v = highCol s ∨ v = closeCol s) :
    (∀ u t, u ≤ t → ∀ a b, cummax v u = some a → cummax v t = some b → a ≤ b) ∧
    (∀ t, athFlag v t = true ↔ ∃ a, v t = some a ∧ cummax v t = some a) ∧
    StreakSpec (athFlag v) (computeMaskStreaks (athFlag v)) := by
  refine ⟨fun u t hut a b ha hb => cummax_mono v hut ha hb,
    fun t => athFlag_iff v t, computeMaskStreaks_spec _⟩

/-- Witness for C3 on the concrete demo series: the close running maximum
grows from 11 to 12, rows 0 and 1 are close ATHs, and the consecutive close
ATH counter steps to 2 on row 1. -/
theorem c3_ath_tracking_witness :
    ((11 : ℚ) ≤ 12) ∧ athFlag (closeCol demoSeries) 1 = true ∧
    computeMaskStreaks (athFlag (closeCol demoSeries)) 1 =
      computeMaskStreaks (athFlag (closeCol demoSeries)) 0 + 1 := by
  have h := c3_ath_tracking demoSeries (closeCol demoSeries) (Or.inr (Or.inr rfl))
  have h0 : cummax (closeCol demoSeries) 0 = some 11 := by
    simp [cummax, cummaxAux, closeCol, barAt, demoSeries, mkBar]
  have h1 : cummax (closeCol demoSeries) 1 = some 12 := by
    simp [cummax, cummaxAux, closeCol, barAt, demoSeries, mkBar]
    norm_num
  have hf1 : athFlag (closeCol demoSeries) 1 = true :=
    (h.2.1 1).2 ⟨12, by simp [closeCol, barAt, demoSeries, mkBar], h1⟩
  have hf0 : athFlag (closeCol demoSeries) 0 = true :=
    (h.2.1 0).2 ⟨11, by simp [closeCol, barAt, demoSeries, mkBar], h0⟩
  exact ⟨h.1 0 1 (by omega) 11 12 h0 h1, hf1,
    (h.2.2 1).2.2 0 rfl hf1 hf0⟩

lemma cumcountKey_add_one_le {α : Type} [DecidableEq α] (key : Nat → α)
    {n t : Nat} (ht : t < n) : cumcountKey key t + 1 ≤ sizeKey key n t := by
  have hsub : insert t ((Finset.range t).filter fun u => key u = key t) ⊆
      (Finset.range n).filter fun u => key u = key t := by
    intro u hu
    rcases Finset.mem_insert.1 hu with h | h
    · subst h
      exact Finset.mem_filter.2 ⟨Finset.mem_range.2 ht, rfl⟩
    · obtain ⟨hr, hk⟩ := Finset.mem_filter.1 h
      exact Finset.mem_filter.2
        ⟨Finset.mem_range.2 (lt_trans (Finset.mem_range.1 hr) ht), hk⟩
  calc cumcountKey key t + 1
      = (insert t ((Finset.range t).filter fun u => key u = key t)).card :=
        (Finset.card_insert_of_not_mem (by simp)).symm
    _ ≤ _ := Finset.card_le_card hsub

lemma cumcountKey_eq_zero {α : Type} [DecidableEq α] (key : Nat → α) (t : Nat)
    (h : ∀ u, u < t → key u ≠ key t) : cumcountKey key t = 0 := by
  unfold cumcountKey
  rw [Finset.card_eq_zero, Finset.filter_eq_empty_iff]
  intro u hu
  exact h u (Finset.mem_range.1 hu)

lemma sizeKey_eq_of_last {α : Type} [DecidableEq α] (key : Nat → α) {n t : Nat}
    (ht : t < n) (h : ∀ u, t < u → u < n → key u ≠ key t) :
    sizeKey key n t = cumcountKey key t + 1 := by
  unfold sizeKey cumcountKey
  have hset : (Finset.range n).filter (fun u => key u = key t) =
      insert t ((Finset.range t).filter fun u => key u = key t) := by
    ext u
    simp only [Finset.mem_filter, Finset.mem_insert, Finset.mem_range]
    constructor
    · rintro ⟨hun, hk⟩
      rcases lt_trichotomy u t with hlt | he | hgt
      · exact Or.inr ⟨hlt, hk⟩
      · exact Or.inl he
      · exact absurd hk (h u hgt hun)
    · rintro (rfl | ⟨hut, hk⟩)
      · exact ⟨ht, rfl⟩
      · exact ⟨by omega, hk⟩
  rw [hset, Finset.card_insert_of_not_mem (by simp)]

/-- The ordinal/remaining contract of the trading-day counters on groups of
rows sharing a key: first row of a group has ordinal 1, ordinal plus
remaining is the group size, and on the last row of a group remaining is 0. -/
def CounterSpec {α : Type} (key : Nat → α) (ordinal remaining size : Nat → Nat)
    (n : Nat) : Prop :=
  ∀ t, t < n →
    ((∀ u, u < t → key u ≠ key t) → ordinal t = 1) ∧
    ordinal t + remaining t = size t ∧
    ((∀ u, t < u → u < n → key u ≠ key t) → remaining t = 0)

lemma counterSpec_holds {α : Type} [DecidableEq α] (key : Nat → α) (n : Nat) :
    CounterSpec key (fun t => cumcountKey key t + 1)
      (fun t => sizeKey key n t - (cumcountKey key t + 1)) (sizeKey key n) n := by
  intro t ht
  have hle := cumcountKey_add_one_le key ht
  refine ⟨fun h => ?_, ?_, fun h => ?_⟩
  · show cumcountKey key t + 1 = 1
    rw [cumcountKey_eq_zero key t h]
  · show cumcountKey key t + 1 + (sizeKey key n t - (cumcountKey key t + 1)) =
      sizeKey key n t
    omega
  · show sizeKey key n t - (cumcountKey key t + 1) = 0
    rw [sizeKey_eq_of_last key ht h]
    omega

/-- Claim C4: for every input series and each trading-day granularity, the
group counters are consistent: the first row of a group has ordinal 1, every
row satisfies ordinal + remaining = group size, and the last row of a group
has remaining 0 (groups range only over row positions of the series).  The
source emits no remaining column at year granularity, so there the same facts
are stated through the ordinal (`trading day`) against the group size. -/
theorem c4_trading_day_counters (s : List Bar) :
    (∀ t, t < s.length →
      ((∀ u, u < t → yearAt s u ≠ yearAt s t) → tradingDay s t = 1) ∧
      tradingDay s t ≤ sizeKey (yearAt s) s.length t ∧
      ((∀ u, t < u → u < s.length → yearAt s u ≠ yearAt s t) →
        tradingDay s t = sizeKey (yearAt s) s.length t)) ∧
    CounterSpec (ymKey s) (tdMonth s) (remMonth s)
      (sizeKey (ymKey s) s.length) s.length ∧
    CounterSpec (ytKey s) (tdTrimester s) (remTrimester s)
      (sizeKey (ytKey s) s.length) s.length ∧
    CounterSpec (ysKey s) (tdSemester s) (remSemester s)
      (sizeKey (ysKey s) s.length) s.length := by
  refine ⟨fun t ht => ?_, counterSpec_holds (ymKey s) s.length,
    counterSpec_holds (ytKey s) s.length, counterSpec_holds (ysKey s) s.length⟩
  have hle := cumcountKey_add_one_le (yearAt s) ht
  refine ⟨fun h => ?_, hle, fun h => ?_⟩
  · unfold tradingDay
    rw [cumcountKey_eq_zero (yearAt s) t h]
  · unfold tradingDay
    rw [sizeKey_eq_of_last (yearAt s) ht h]

/-- Witness for C4 on the concrete demo series (three January-2024 rows): the
first row has month ordinal 1, the last row has 0 remaining days in the
month, and the first row has year ordinal 1. -/
theorem c4_trading_day_counters_witness :
    tdMonth demoSeries 0 = 1 ∧ remMonth demoSeries 2 = 0 ∧
    tradingDay demoSeries 0 = 1 := by
  have h := c4_trading_day_counters demoSeries
  refine ⟨(h.2.1 0 (by decide)).1 (fun u hu => absurd hu (Nat.not_lt_zero u)),
    (h.2.1 2 (by decide)).2.2
      (fun u h1 h2 => by
        have hlen : demoSeries.length = 3 := rfl
        omega),
    (h.1 0 (by decide)).1 (fun u hu => absurd hu (Nat.not_lt_zero u))⟩

lemma ratioCell_none_right (a : Option ℚ) : ratioCell a none = none := by
  cases a <;> rfl

lemma ratioCell_none_left (b : Option ℚ) : ratioCell none b = none := by
  cases b <;> rfl

/-- Claim C7: for every horizon of the engine and every row, the backward
return is `(close[t]/close[t-h] - 1) * 100` when row `t-h` exists and is
missing otherwise, and the forward return is `(close[t]/close[t+h] - 1) * 100`
when row `t+h` exists and is missing otherwise (missing, never zero). -/
theorem c7_multi_horizon_returns (s : List Bar)
    (hall : ∀ t, t < s.length → (closeCol s t).isSome) (p : Nat)
    (hp : p ∈ horizons) (t : Nat) (ht : t < s.length) :
    (p ≤ t → ∃ a b, closeCol s t = some a ∧ closeCol s (t - p) = some b ∧
      ccBack s p t = some ((a / b - 1) * 100)) ∧
    (t < p → ccBack s p t = none) ∧
    (t + p < s.length → ∃ a b, closeCol s t = some a ∧
      closeCol s (t + p) = some b ∧ ccFwd s p t = some ((a / b - 1) * 100)) ∧
    (s.length ≤ t + p → ccFwd s p t = none) := by
  obtain ⟨a, ha⟩ := Option.isSome_iff_exists.1 (hall t ht)
  refine ⟨fun hpt => ?_, fun hpt => ?_, fun hpt => ?_, fun hpt => ?_⟩
  · obtain ⟨b, hb⟩ := Option.isSome_iff_exists.1 (hall (t - p) (by omega))
    exact ⟨a, b, ha, hb, by simp [ccBack, ratioCell, shiftB, hpt, ha, hb]⟩
  · have hsh : shiftB (closeCol s) p t = none := by
      simp [shiftB]
      omega
    rw [ccBack, hsh, ratioCell_none_right]
  · obtain ⟨b, hb⟩ := Option.isSome_iff_exists.1 (hall (t + p) hpt)
    exact ⟨a, b, ha, hb, by simp [ccFwd, ratioCell, shiftF, hpt, ha, hb]⟩
  · have hsh : shiftF (closeCol s) s.length p t = none := by
      simp [shiftF]
      omega
    rw [ccFwd, hsh, ratioCell_none_right]

/-- Witness for C7 on the concrete demo series at horizon 2: the backward
return on row 2 divides close 10 by close 11, and the forward return on row 2
is missing (row 4 does not exist). -/
theorem c7_multi_horizon_returns_witness :
    ccBack demoSeries 2 2 = some ((10 / 11 - 1) * 100) ∧
    ccFwd demoSeries 2 2 = none := by
  have h := c7_multi_horizon_returns demoSeries
    (by decide) 2 (by decide) 2 (by decide)
  obtain ⟨a, b, ha, hb, hcell⟩ := h.1 (by omega)
  have hva : closeCol demoSeries 2 = some 10 := by decide
  have hvb : closeCol demoSeries 0 = some 11 := by decide
  rw [hva] at ha
  rw [hvb] at hb
  have ha' : (10 : ℚ) = a := Option.some_inj.1 ha
  have hb' : (11 : ℚ) = b := Option.some_inj.1 hb
  rw [← ha', ← hb'] at hcell
  exact ⟨hcell, h.2.2.2 (by decide)⟩

/-- The missing-propagation contract of one percentage cell: the cell is
missing exactly when an operand is missing, and a present cell was computed
by an exact division with a nonzero denominator (no infinity, no error). -/
def RatioSpec (num den cell : Option ℚ) : Prop :=
  (cell = none ↔ num = none ∨ den = none) ∧
  ∀ x, cell = some x → ∃ a b, num = some a ∧ den = some b ∧ b ≠ 0 ∧
    x = (a / b - 1) * 100

lemma ratioSpec_of_pos (num den : Option ℚ)
    (hden : ∀ b, den = some b → 0 < b) :
    RatioSpec num den (ratioCell num den) := by
  cases num with
  | none => cases den <;> simp [ratioCell, RatioSpec]
  | some a =>
    cases den with
    | none => simp [ratioCell, RatioSpec]
    | some b =>
      refine ⟨by simp [ratioCell], fun x hx => ⟨a, b, rfl, rfl,
        (hden b rfl).ne', ?_⟩⟩
      simpa [ratioCell] using hx.symm

lemma shiftB_pos (c : Nat → Option ℚ) (n : Nat)
    (hc : ∀ u, u < n → ∀ b, c u = some b → 0 < b) {p t : Nat} (ht : t < n) :
    ∀ b, shiftB c p t = some b → 0 < b := by
  intro b hb
  unfold shiftB at hb
  split at hb
  · exact hc (t - p) (by omega) b hb
  · exact absurd hb (by simp)

lemma shiftF_pos (c : Nat → Option ℚ) (n : Nat)
    (hc : ∀ u, u < n → ∀ b, c u = some b → 0 < b) {p t : Nat} :
    ∀ b, shiftF c n p t = some b → 0 < b := by
  intro b hb
  unfold shiftF at hb
  split at hb
  · next h => exact hc (t + p) h b hb
  · exact absurd hb (by simp)

/-- Claim C8: under the data-model precondition that present prices are
positive, every percentage cell of the engine (cc, oc, co, the internal
oo/hh/ll ratios, and all multi-horizon returns) satisfies the
missing-propagation contract: a missing operand yields a missing result for
that cell only, and every present cell is a finite exact ratio computed with
a nonzero denominator (so no exception and no infinity can arise). -/
theorem c8_division_safety (s : List Bar) (hpos : PosSeries s) (t : Nat)
    (ht : t < s.length) :
    RatioSpec (closeCol s t) (shiftB (closeCol s) 1 t) (ccCol s t) ∧
    RatioSpec (closeCol s t) (openCol s t) (ocCol s t) ∧
    RatioSpec (openCol s t) (shiftB (closeCol s) 1 t) (coCol s t) ∧
    RatioSpec (openCol s t) (shiftB (openCol s) 1 t) (ooCol s t) ∧
    RatioSpec (highCol s t) (shiftB (highCol s) 1 t) (hhCol s t) ∧
    RatioSpec (lowCol s t) (shiftB (lowCol s) 1 t) (llCol s t) ∧
    ∀ p, p ∈ horizons →
      RatioSpec (closeCol s t) (shiftB (closeCol s) p t) (ccBack s p t) ∧
      RatioSpec (closeCol s t) (shiftF (closeCol s) s.length p t)
        (ccFwd s p t) := by
  have hop : ∀ u, u < s.length → ∀ b, openCol s u = some b → 0 < b :=
    fun u hu => (hpos u hu).1
  have hhi : ∀ u, u < s.length → ∀ b, highCol s u = some b → 0 < b :=
    fun u hu => (hpos u hu).2.1
  have hlo : ∀ u, u < s.length → ∀ b, lowCol s u = some b → 0 < b :=
    fun u hu => (hpos u hu).2.2.1
  have hcl : ∀ u, u < s.length → ∀ b, closeCol s u = some b → 0 < b :=
    fun u hu => (hpos u hu).2.2.2
  refine ⟨ratioSpec_of_pos _ _ (shiftB_pos _ s.length hcl ht),
    ratioSpec_of_pos _ _ (hop t ht),
    ratioSpec_of_pos _ _ (shiftB_pos _ s.length hcl ht),
    ratioSpec_of_pos _ _ (shiftB_pos _ s.length hop ht),
    ratioSpec_of_pos _ _ (shiftB_pos _ s.length hhi ht),
    ratioSpec_of_pos _ _ (shiftB_pos _ s.length hlo ht),
    fun p _ => ⟨ratioSpec_of_pos _ _ (shiftB_pos _ s.length hcl ht),
      ratioSpec_of_pos _ _ (shiftF_pos _ s.length hcl)⟩⟩

lemma demoSeries_pos : PosSeries demoSeries := by
  intro t ht
  have hlen : demoSeries.length = 3 := rfl
  rw [hlen] at ht
  interval_cases t <;>
    refine ⟨fun a ha => ?_, fun a ha => ?_, fun a ha => ?_, fun a ha => ?_⟩ <;>
    · simp [openCol, highCol, lowCol, closeCol, barAt, demoSeries, mkBar] at ha
      norm_num [← ha]

/-- Witness for C8 on the concrete demo series: the cc cell of row 0 is
missing (missing shifted operand), while the oc cell of row 0 is present. -/
theorem c8_division_safety_witness :
    ccCol demoSeries 0 = none ∧ ocCol demoSeries 0 ≠ none := by
  have h := c8_division_safety demoSeries demoSeries_pos 0 (by decide)
  constructor
  · refine h.1.1.mpr (Or.inr ?_)
    simp [shiftB]
  · intro hc
    rcases h.2.1.1.mp hc with hnum | hden
    · simp [closeCol, barAt, demoSeries, mkBar] at hnum
    · simp [openCol, barAt, demoSeries, mkBar] at hden

/-- Claim C9: on a zero-row input series, `compute_features`,
`compute_monthly_performance`, `compute_weekday_performance` and
`compute_weekday_performance_by_quarter` all short-circuit and return the
empty / untransformed result. -/
theorem c9_empty_input :
    computeFeatures [] = [] ∧ computeMonthlyPerformance [] = none ∧
    computeWeekdayPerformance [] = none ∧
    computeWeekdayPerformanceByQuarter [] = none :=
  ⟨rfl, rfl, rfl, rfl⟩

/-- The year-dependent part of `Date.dayNumber` (era and year-of-era terms). -/
def gfun (a : Nat) : Nat :=
  a / 400 * 146097 + (a % 400 * 365 + a % 400 / 4 - a % 400 / 100)

/-- The month-dependent part of `Date.dayNumber`. -/
def doyStart (m : Nat) : Nat :=
  (153 * (if 2 < m then m - 3 else m + 9) + 2) / 5

lemma dayNumber_eq (y m d : Nat) (hd : 1 ≤ d) :
    Date.dayNumber ⟨y, m, d⟩ =
      gfun (if m ≤ 2 then y - 1 else y) + doyStart m + (d - 1) := by
  simp only [Date.dayNumber, gfun, doyStart]
  rcases le_or_lt m 2 with hm | hm
  · rw [if_pos hm, if_neg (show ¬ 2 < m by omega)]
    omega
  · rw [if_neg (show ¬ m ≤ 2 by omega), if_pos hm]
    omega

lemma gfun_step (a : Nat) : gfun a + 365 ≤ gfun (a + 1) := by
  unfold gfun
  omega

lemma monthStart_succ_ge (y m : Nat) (hy : 1 ≤ y) (hm1 : 1 ≤ m)
    (hm2 : m ≤ 11) :
    Date.dayNumber ⟨y, m, 1⟩ + 28 ≤ Date.dayNumber ⟨y, m + 1, 1⟩ := by
  have hstep := gfun_step (y - 1)
  have hy1 : y - 1 + 1 = y := by omega
  rw [hy1] at hstep
  interval_cases m <;>
    rw [dayNumber_eq _ _ _ le_rfl, dayNumber_eq _ _ _ le_rfl] <;>
    norm_num [doyStart] <;>
    omega

lemma monthStart_dec_ge (y : Nat) :
    Date.dayNumber ⟨y, 12, 1⟩ + 28 ≤ Date.dayNumber ⟨y + 1, 1, 1⟩ := by
  rw [dayNumber_eq _ _ _ le_rfl, dayNumber_eq _ _ _ le_rfl]
  norm_num [doyStart]

lemma monthStart_mono (y : Nat) (hy : 1 ≤ y) (m1 : Nat) (h1 : 1 ≤ m1) :
    ∀ m2, m1 ≤ m2 → m2 ≤ 12 →
      Date.dayNumber ⟨y, m1, 1⟩ ≤ Date.dayNumber ⟨y, m2, 1⟩ := by
  intro m2
  induction m2 with
  | zero => exact fun h12 _ => absurd h12 (by omega)
  | succ k ih =>
    intro h12 h2
    rcases Nat.lt_or_ge k m1 with hk | hk
    · have hkm : m1 = k + 1 := by omega
      rw [hkm]
    · have h := monthStart_succ_ge y k hy (by omega) (by omega)
      exact le_trans (ih hk (by omega)) (by omega)

lemma monthStart_le_day (y m d : Nat) (hd : 1 ≤ d) :
    Date.dayNumber ⟨y, m, 1⟩ ≤ Date.dayNumber ⟨y, m, d⟩ := by
  rw [dayNumber_eq y m 1 le_rfl, dayNumber_eq y m d hd]
  omega

lemma thirdFriday_le (y m : Nat) :
    thirdFriday y m ≤ Date.dayNumber ⟨y, m, 1⟩ + 20 := by
  show Date.dayNumber ⟨y, m, 1⟩ +
      (11 - pyWeekday (Date.dayNumber ⟨y, m, 1⟩)) % 7 + 14 ≤ _
  have h := Nat.mod_lt (11 - pyWeekday (Date.dayNumber ⟨y, m, 1⟩))
    (show 0 < 7 by norm_num)
  omega

/-- A month's third Friday falls before the first day of the next month. -/
lemma thirdFriday_lt_next (y m : Nat) (hy : 1 ≤ y) (hm1 : 1 ≤ m)
    (hm2 : m ≤ 11) : thirdFriday y m < Date.dayNumber ⟨y, m + 1, 1⟩ := by
  have h1 := thirdFriday_le y m
  have h2 := monthStart_succ_ge y m hy hm1 hm2
  omega

lemma thirdFriday_dec_lt (y : Nat) :
    thirdFriday y 12 < Date.dayNumber ⟨y + 1, 1, 1⟩ := by
  have h1 := thirdFriday_le y 12
  have h2 := monthStart_dec_ge y
  omega

/-- The previous monthly expiration used for a row dated on or before its own
month's third Friday falls strictly before any day of that month. -/
lemma prevTW_core (y m d : Nat) (hy : 1 ≤ y) (hm1 : 1 ≤ m) (hm2 : m ≤ 12)
    (hd : 1 ≤ d) :
    thirdFriday (prevMonthOf y m).1 (prevMonthOf y m).2 <
      Date.dayNumber ⟨y, m, d⟩ := by
  have hstart := monthStart_le_day y m d hd
  interval_cases m
  · show thirdFriday (y - 1) 12 < Date.dayNumber ⟨y, 1, d⟩
    have h12 := thirdFriday_dec_lt (y - 1)
    have hy1 : y - 1 + 1 = y := by omega
    rw [hy1] at h12
    omega
  · show thirdFriday y 1 < Date.dayNumber ⟨y, 2, d⟩
    have h1 : thirdFriday y 1 < Date.dayNumber ⟨y, 2, 1⟩ :=
      thirdFriday_lt_next y 1 hy (by norm_num) (by norm_num)
    omega
  · show thirdFriday y 2 < Date.dayNumber ⟨y, 3, d⟩
    have h1 : thirdFriday y 2 < Date.dayNumber ⟨y, 3, 1⟩ :=
      thirdFriday_lt_next y 2 hy (by norm_num) (by norm_num)
    omega
  · show thirdFriday y 3 < Date.dayNumber ⟨y, 4, d⟩
    have h1 : thirdFriday y 3 < Date.dayNumber ⟨y, 4, 1⟩ :=
      thirdFriday_lt_next y 3 hy (by norm_num) (by norm_num)
    omega
  · show thirdFriday y 4 < Date.dayNumber ⟨y, 5, d⟩
    have h1 : thirdFriday y 4 < Date.dayNumber ⟨y, 5, 1⟩ :=
      thirdFriday_lt_next y 4 hy (by norm_num) (by norm_num)
    omega
  · show thirdFriday y 5 < Date.dayNumber ⟨y, 6, d⟩
    have h1 : thirdFriday y 5 < Date.dayNumber ⟨y, 6, 1⟩ :=
      thirdFriday_lt_next y 5 hy (by norm_num) (by norm_num)
    omega
  · show thirdFriday y 6 < Date.dayNumber ⟨y, 7, d⟩
    have h1 : thirdFriday y 6 < Date.dayNumber ⟨y, 7, 1⟩ :=
      thirdFriday_lt_next y 6 hy (by norm_num) (by norm_num)
    omega
  · show thirdFriday y 7 < Date.dayNumber ⟨y, 8, d⟩
    have h1 : thirdFriday y 7 < Date.dayNumber ⟨y, 8, 1⟩ :=
      thirdFriday_lt_next y 7 hy (by norm_num) (by norm_num)
    omega
  · show thirdFriday y 8 < Date.dayNumber ⟨y, 9, d⟩
    have h1 : thirdFriday y 8 < Date.dayNumber ⟨y, 9, 1⟩ :=
      thirdFriday_lt_next y 8 hy (by norm_num) (by norm_num)
    omega
  · show thirdFriday y 9 < Date.dayNumber ⟨y, 10, d⟩
    have h1 : thirdFriday y 9 < Date.dayNumber ⟨y, 10, 1⟩ :=
      thirdFriday_lt_next y 9 hy (by norm_num) (by norm_num)
    omega
  · show thirdFriday y 10 < Date.dayNumber ⟨y, 11, d⟩
    have h1 : thirdFriday y 10 < Date.dayNumber ⟨y, 11, 1⟩ :=
      thirdFriday_lt_next y 10 hy (by norm_num) (by norm_num)
    omega
  · show thirdFriday y 11 < Date.dayNumber ⟨y, 12, d⟩
    have h1 : thirdFriday y 11 < Date.dayNumber ⟨y, 12, 1⟩ :=
      thirdFriday_lt_next y 11 hy (by norm_num) (by norm_num)
    omega

/-- The previous quarterly expiration used for a row dated on or before its
quarter's third Friday falls strictly before any day of the row's month. -/
lemma prevQTW_core (y m d : Nat) (hy : 1 ≤ y) (hm1 : 1 ≤ m) (hm2 : m ≤ 12)
    (hd : 1 ≤ d) :
    thirdFriday (prevQuarterOf y (quarterMonthOf m)).1
      (prevQuarterOf y (quarterMonthOf m)).2 < Date.dayNumber ⟨y, m, d⟩ := by
  have hstart := monthStart_le_day y m d hd
  interval_cases m
  · show thirdFriday (y - 1) 12 < Date.dayNumber ⟨y, 1, d⟩
    have h12 := thirdFriday_dec_lt (y - 1)
    have hy1 : y - 1 + 1 = y := by omega
    rw [hy1] at h12
    have hmono : Date.dayNumber ⟨y, 1, 1⟩ ≤ Date.dayNumber ⟨y, 1, 1⟩ :=
      monthStart_mono y hy 1 (by norm_num) 1 (by norm_num) (by norm_num)
    omega
  · show thirdFriday (y - 1) 12 < Date.dayNumber ⟨y, 2, d⟩
    have h12 := thirdFriday_dec_lt (y - 1)
    have hy1 : y - 1 + 1 = y := by omega
    rw [hy1] at h12
    have hmono : Date.dayNumber ⟨y, 1, 1⟩ ≤ Date.dayNumber ⟨y, 2, 1⟩ :=
      monthStart_mono y hy 1 (by norm_num) 2 (by norm_num) (by norm_num)
    omega
  · show thirdFriday (y - 1) 12 < Date.dayNumber ⟨y, 3, d⟩
    have h12 := thirdFriday_dec_lt (y - 1)
    have hy1 : y - 1 + 1 = y := by omega
    rw [hy1] at h12
    have hmono : Date.dayNumber ⟨y, 1, 1⟩ ≤ Date.dayNumber ⟨y, 3, 1⟩ :=
      monthStart_mono y hy 1 (by norm_num) 3 (by norm_num) (by norm_num)
    omega
  · show thirdFriday y 3 < Date.dayNumber ⟨y, 4, d⟩
    have h1 : thirdFriday y 3 < Date.dayNumber ⟨y, 4, 1⟩ :=
      thirdFriday_lt_next y 3 hy (by norm_num) (by norm_num)
    have hmono : Date.dayNumber ⟨y, 4, 1⟩ ≤ Date.dayNumber ⟨y, 4, 1⟩ :=
      monthStart_mono y hy 4 (by norm_num) 4 (by norm_num) (by norm_num)
    omega
  · show thirdFriday y 3 < Date.dayNumber ⟨y, 5, d⟩
    have h1 : thirdFriday y 3 < Date.dayNumber ⟨y, 4, 1⟩ :=
      thirdFriday_lt_next y 3 hy (by norm_num) (by norm_num)
    have hmono : Date.dayNumber ⟨y, 4, 1⟩ ≤ Date.dayNumber ⟨y, 5, 1⟩ :=
      monthStart_mono y hy 4 (by norm_num) 5 (by norm_num) (by norm_num)
    omega
  · show thirdFriday y 3 < Date.dayNumber ⟨y, 6, d⟩
    have h1 : thirdFriday y 3 < Date.dayNumber ⟨y, 4, 1⟩ :=
      thirdFriday_lt_next y 3 hy (by norm_num) (by norm_num)
    have hmono : Date.dayNumber ⟨y, 4, 1⟩ ≤ Date.dayNumber ⟨y, 6, 1⟩ :=
      monthStart_mono y hy 4 (by norm_num) 6 (by norm_num) (by norm_num)
    omega
  · show thirdFriday y 6 < Date.dayNumber ⟨y, 7, d⟩
    have h1 : thirdFriday y 6 < Date.dayNumber ⟨y, 7, 1⟩ :=
      thirdFriday_lt_next y 6 hy (by norm_num) (by norm_num)
    have hmono : Date.dayNumber ⟨y, 7, 1⟩ ≤ Date.dayNumber ⟨y, 7, 1⟩ :=
      monthStart_mono y hy 7 (by norm_num) 7 (by norm_num) (by norm_num)
    omega
  · show thirdFriday y 6 < Date.dayNumber ⟨y, 8, d⟩
    have h1 : thirdFriday y 6 < Date.dayNumber ⟨y, 7, 1⟩ :=
      thirdFriday_lt_next y 6 hy (by norm_num) (by norm_num)
    have hmono : Date.dayNumber ⟨y, 7, 1⟩ ≤ Date.dayNumber ⟨y, 8, 1⟩ :=
      monthStart_mono y hy 7 (by norm_num) 8 (by norm_num) (by norm_num)
    omega
  · show thirdFriday y 6 < Date.dayNumber ⟨y, 9, d⟩
    have h1 : thirdFriday y 6 < Date.dayNumber ⟨y, 7, 1⟩ :=
      thirdFriday_lt_next y 6 hy (by norm_num) (by norm_num)
    have hmono : Date.dayNumber ⟨y, 7, 1⟩ ≤ Date.dayNumber ⟨y, 9, 1⟩ :=
      monthStart_mono y hy 7 (by norm_num) 9 (by norm_num) (by norm_num)
    omega
  · show thirdFriday y 9 < Date.dayNumber ⟨y, 10, d⟩
    have h1 : thirdFriday y 9 < Date.dayNumber ⟨y, 10, 1⟩ :=
      thirdFriday_lt_next y 9 hy (by norm_num) (by norm_num)
    have hmono : Date.dayNumber ⟨y, 10, 1⟩ ≤ Date.dayNumber ⟨y, 10, 1⟩ :=
      monthStart_mono y hy 10 (by norm_num) 10 (by norm_num) (by norm_num)
    omega
  · show thirdFriday y 9 < Date.dayNumber ⟨y, 11, d⟩
    have h1 : thirdFriday y 9 < Date.dayNumber ⟨y, 10, 1⟩ :=
      thirdFriday_lt_next y 9 hy (by norm_num) (by norm_num)
    have hmono : Date.dayNumber ⟨y, 10, 1⟩ ≤ Date.dayNumber ⟨y, 11, 1⟩ :=
      monthStart_mono y hy 10 (by norm_num) 11 (by norm_num) (by norm_num)
    omega
  · show thirdFriday y 9 < Date.dayNumber ⟨y, 12, d⟩
    have h1 : thirdFriday y 9 < Date.dayNumber ⟨y, 10, 1⟩ :=
      thirdFriday_lt_next y 9 hy (by norm_num) (by norm_num)
    have hmono : Date.dayNumber ⟨y, 10, 1⟩ ≤ Date.dayNumber ⟨y, 12, 1⟩ :=
      monthStart_mono y hy 10 (by norm_num) 12 (by norm_num) (by norm_num)
    omega

lemma barAt_eq_get (s : List Bar) (t : Nat) (ht : t < s.length) :
    barAt s t = s.get ⟨t, ht⟩ :=
  List.getD_eq_get s _ ht

lemma barAt_mem (s : List Bar) (t : Nat) (ht : t < s.length) :
    barAt s t ∈ s := by
  rw [barAt_eq_get s t ht]
  exact s.get_mem t ht

lemma dnum_eq_mk (s : List Bar) (t : Nat) :
    dnum s t =
      Date.dayNumber ⟨yearAt s t, monthAt s t, (barAt s t).date.d⟩ := rfl

/-- The resolved previous monthly expiration date is strictly earlier than
the row's own date. -/
lemma prevTWd_lt (s : List Bar) (hval : ValidSeries s) (t : Nat)
    (ht : t < s.length) : prevTWd s t < dnum s t := by
  obtain ⟨hy, hm1, hm2, hd⟩ := hval _ (barAt_mem s t ht)
  unfold prevTWd
  split
  · rw [dnum_eq_mk]
    exact prevTW_core (yearAt s t) (monthAt s t) _ hy hm1 hm2 hd
  · omega

/-- The resolved previous quarterly expiration date is strictly earlier than
the row's own date. -/
lemma prevQTWd_lt (s : List Bar) (hval : ValidSeries s) (t : Nat)
    (ht : t < s.length) : prevQTWd s t < dnum s t := by
  obtain ⟨hy, hm1, hm2, hd⟩ := hval _ (barAt_mem s t ht)
  unfold prevQTWd
  split
  · rw [dnum_eq_mk]
    exact prevQTW_core (yearAt s t) (monthAt s t) _ hy hm1 hm2 hd
  · omega

lemma findIdx_le_of_pred (ds : List Nat) (x : Nat) :
    ∀ t, t < ds.length → x ≤ ds.getD t 0 →
      ds.findIdx (fun dv => decide (x ≤ dv)) ≤ t := by
  induction ds with
  | nil => intro t ht hx; simp at ht
  | cons a l ih =>
    intro t ht hx
    cases t with
    | zero =>
      have ha : decide (x ≤ a) = true := by
        simpa using hx
      simp [List.findIdx_cons, ha]
    | succ k =>
      rw [List.findIdx_cons]
      cases hpa : decide (x ≤ a) with
      | true => simp
      | false =>
        have hk := ih k (by simpa using ht) (by simpa using hx)
        simp only [cond_false]
        omega

lemma dnum_getD (s : List Bar) (t : Nat) (ht : t < s.length) :
    (datesOf s).getD t 0 = dnum s t := by
  rw [List.getD_eq_getElem _ _ (by simpa [datesOf] using ht)]
  simp [datesOf, dnum, barAt_eq_get s t ht]

/-- The leftmost-at-or-after search for the previous monthly expiration
always lands at or before the row itself. -/
lemma prevPos_spec (s : List Bar) (hval : ValidSeries s) (t : Nat)
    (ht : t < s.length) : ∃ p, prevPos s t = some p ∧ p ≤ t := by
  have hlt := prevTWd_lt s hval t ht
  have hfind : searchsortedLeft (datesOf s) (prevTWd s t) ≤ t := by
    apply findIdx_le_of_pred (datesOf s) (prevTWd s t) t
      (by simpa [datesOf] using ht)
    rw [dnum_getD s t ht]
    omega
  refine ⟨searchsortedLeft (datesOf s) (prevTWd s t), ?_, hfind⟩
  unfold prevPos
  rw [if_neg (by omega)]

lemma prevQPos_spec (s : List Bar) (hval : ValidSeries s) (t : Nat)
    (ht : t < s.length) : ∃ p, prevQPos s t = some p ∧ p ≤ t := by
  have hlt := prevQTWd_lt s hval t ht
  have hfind : searchsortedLeft (datesOf s) (prevQTWd s t) ≤ t := by
    apply findIdx_le_of_pred (datesOf s) (prevQTWd s t) t
      (by simpa [datesOf] using ht)
    rw [dnum_getD s t ht]
    omega
  refine ⟨searchsortedLeft (datesOf s) (prevQTWd s t), ?_, hfind⟩
  unfold prevQPos
  rw [if_neg (by omega)]

/-- Claim C10: for every series of well-formed dates and every row, the
"trading days elapsed since" values for the monthly and the quarterly
expiration are always defined (and, being counts, non-negative): the resolved
previous expiration date is strictly earlier than the row's date, so the
leftmost-at-or-after position search lands at or before the row's position,
never past the end of the series. -/
theorem c10_elapsed_always_defined (s : List Bar) (hval : ValidSeries s)
    (t : Nat) (ht : t < s.length) :
    prevTWd s t < dnum s t ∧ prevQTWd s t < dnum s t ∧
    (∀ p, prevPos s t = some p → p ≤ t) ∧
    (∀ p, prevQPos s t = some p → p ≤ t) ∧
    (∃ e, elapsed3 s t = some e) ∧ (∃ e, elapsed4 s t = some e) := by
  obtain ⟨p, hp, hpt⟩ := prevPos_spec s hval t ht
  obtain ⟨q, hq, hqt⟩ := prevQPos_spec s hval t ht
  refine ⟨prevTWd_lt s hval t ht, prevQTWd_lt s hval t ht,
    fun r hr => ?_, fun r hr => ?_,
    ⟨t - p, by simp [elapsed3, hp]⟩,
    ⟨t - q, by simp [elapsed4, hq]⟩⟩
  · rw [hp] at hr
    obtain rfl := Option.some_inj.1 hr
    omega
  · rw [hq] at hr
    obtain rfl := Option.some_inj.1 hr
    omega

/-- Witness for C10 on the concrete demo series: row 1 has a defined
elapsed-since value for both expirations, and its previous monthly
expiration (2023-12-15) precedes its date (2024-01-03). -/
theorem c10_elapsed_always_defined_witness :
    prevTWd demoSeries 1 < dnum demoSeries 1 ∧
    (∃ e, elapsed3 demoSeries 1 = some e) ∧
    (∃ e, elapsed4 demoSeries 1 = some e) := by
  have h := c10_elapsed_always_defined demoSeries
    (by simp only [ValidSeries]; decide) 1 (by decide)
  exact ⟨h.1, h.2.2.2.2.1, h.2.2.2.2.2⟩

/-- Claim C1: on the series of one bar per weekday from 2024-01-02 through
2024-01-31, the row dated 2024-01-10 resolves its next monthly expiration to
2024-01-19, the third Friday of January 2024 (the first Friday of the month
plus 14 days), and its trading-days-remaining value equals the number of
series rows dated strictly after 2024-01-10 and at or before 2024-01-19. -/
theorem c1_expiration_search :
    (barAt janSeries 6).date = ⟨2024, 1, 10⟩ ∧
    thirdFriday 2024 1 = Date.dayNumber ⟨2024, 1, 19⟩ ∧
    nextTWd janSeries 6 = Date.dayNumber ⟨2024, 1, 19⟩ ∧
    remaining3 janSeries 6 = some ((janSeries.filter fun b =>
      Date.dayNumber ⟨2024, 1, 10⟩ < b.date.dayNumber ∧
        b.date.dayNumber ≤ Date.dayNumber ⟨2024, 1, 19⟩).length) := by
  decide

lemma prevIdxSame_eq_none_iff (f : Nat → Nat) (x : Nat) :
    ∀ k, prevIdxSame f x k = none ↔ ∀ u, u < k → f u ≠ x := by
  intro k
  induction k with
  | zero => simp [prevIdxSame]
  | succ k ih =>
    unfold prevIdxSame
    by_cases h : f k = x
    · rw [if_pos h]
      constructor
      · intro hn
        exact absurd hn (by simp)
      · intro hall
        exact absurd h (hall k (by omega))
    · rw [if_neg h, ih]
      constructor
      · intro hall u hu
        rcases Nat.lt_or_ge u k with h1 | h1
        · exact hall u h1
        · have hu' : u = k := by omega
          rw [hu']
          exact h
      · intro hall u hu
        exact hall u (by omega)

lemma prevIdxSame_some (f : Nat → Nat) (x : Nat) :
    ∀ k u, prevIdxSame f x k = some u → u < k ∧ f u = x := by
  intro k
  induction k with
  | zero => intro u h; exact absurd h (by simp [prevIdxSame])
  | succ k ih =>
    intro u h
    unfold prevIdxSame at h
    by_cases hf : f k = x
    · rw [if_pos hf] at h
      obtain rfl := Option.some_inj.1 h
      exact ⟨by omega, hf⟩
    · rw [if_neg hf] at h
      obtain ⟨h1, h2⟩ := ih u h
      exact ⟨by omega, h2⟩

/-- A per-row weekday return is defined exactly when some earlier row of the
same weekday exists anywhere in the series: the chaining is by weekday group,
never by calendar-adjacent rows. -/
lemma perfWd_isSome_iff (fd : List Bar) (t : Nat) :
    (perfWd fd t).isSome = true ↔
      ∃ u, u < t ∧ wdAt fd u = wdAt fd t := by
  unfold perfWd prevSameWd
  cases hp : prevIdxSame (wdAt fd) (wdAt fd t) t with
  | none =>
    simp only [hp, Option.isSome_none]
    constructor
    · intro h
      exact absurd h (by simp)
    · rintro ⟨u, hu, hw⟩
      exact absurd hw ((prevIdxSame_eq_none_iff _ _ t).1 hp u hu)
  | some u =>
    simp only [hp, Option.isSome_some]
    have hspec := prevIdxSame_some (wdAt fd) (wdAt fd t) t u hp
    exact ⟨fun _ => ⟨u, hspec.1, hspec.2⟩, fun _ => trivial⟩

lemma cellWeekday_none_of_unchained (fd : List Bar) (w wy : Nat)
    (h : ∀ t, t < fd.length → wdAt fd t = w → wyAt fd t = wy →
      perfWd fd t = none) :
    cellWeekday fd w wy = none := by
  have hvals : ((List.range fd.length).filter fun t =>
      decide (wdAt fd t = w ∧ wyAt fd t = wy)).filterMap
        (fun t => perfWd fd t) = [] := by
    rw [List.filterMap_eq_nil_iff]
    intro t htmem
    obtain ⟨hrange, hcond⟩ := List.mem_filter.1 htmem
    have hcond' : wdAt fd t = w ∧ wyAt fd t = wy := of_decide_eq_true hcond
    exact h t (List.mem_range.1 hrange) hcond'.1 hcond'.2
  simp only [cellWeekday]
  rw [hvals]
  rfl

/-- Counterexample to Claim C5 as stated: in the series Monday 2023-12-25
(close 100), Friday 2024-01-05 (close 105), Monday 2024-01-08 (close 110),
the Monday row 2024-01-08 has no prior Monday within its ISO-week-year group
(2024) and a Friday bar immediately precedes it in the series — yet the
(monday, 2024) pivot cell is 10.0, not missing, because the per-weekday
percent change chains to the Monday 2023-12-25 of the previous ISO week-year
group. -/
theorem c5_weekday_pivot_counterexample :
    (barAt (dropNaClose mondaySeries) 2).date = ⟨2024, 1, 8⟩ ∧
    wdAt (dropNaClose mondaySeries) 2 = 0 ∧
    wyAt (dropNaClose mondaySeries) 2 = 2024 ∧
    (∀ u, u < 2 → ¬(wdAt (dropNaClose mondaySeries) u = 0 ∧
      wyAt (dropNaClose mondaySeries) u = 2024)) ∧
    wdAt (dropNaClose mondaySeries) 1 = 4 ∧
    dnum (dropNaClose mondaySeries) 1 + 3 = dnum (dropNaClose mondaySeries) 2 ∧
    cellWeekday (dropNaClose mondaySeries) 0 2024 = some 10 := by
  refine ⟨by decide, by decide, by decide, by decide, by decide, by decide, ?_⟩
  have hprev : prevSameWd (dropNaClose mondaySeries) 2 = some 0 := by decide
  have hperf : perfWd (dropNaClose mondaySeries) 2 = some 10 := by
    rw [perfWd, hprev]
    norm_num [clo, barAt, dropNaClose, mondaySeries, mkBar]
  have hidx : ((List.range (dropNaClose mondaySeries).length).filter fun t =>
      decide (wdAt (dropNaClose mondaySeries) t = 0 ∧
        wyAt (dropNaClose mondaySeries) t = 2024)) = [2] := by decide
  simp only [cellWeekday]
  rw [hidx]
  simp [hperf]

/-- Claim C5 (amended): per-row weekday returns are percent changes chained
within each weekday group, across ISO-week-year boundaries, never
calendar-adjacent-day returns: a row's return is defined exactly when an
earlier row of the same weekday exists anywhere in the series; and a
(weekday, ISO-week-year) cell is missing when every row of that group has no
earlier same-weekday row — in particular a lone first Monday yields a missing
cell even when a Friday bar immediately precedes it. -/
theorem c5_weekday_pivot_amended (s : List Bar) :
    (∀ t, (perfWd (dropNaClose s) t).isSome = true ↔
      ∃ u, u < t ∧ wdAt (dropNaClose s) u = wdAt (dropNaClose s) t) ∧
    (∀ w wy, (∀ t, t < (dropNaClose s).length → wdAt (dropNaClose s) t = w →
        wyAt (dropNaClose s) t = wy →
        ¬∃ u, u < t ∧ wdAt (dropNaClose s) u = wdAt (dropNaClose s) t) →
      cellWeekday (dropNaClose s) w wy = none) := by
  refine ⟨fun t => perfWd_isSome_iff (dropNaClose s) t, fun w wy h => ?_⟩
  apply cellWeekday_none_of_unchained
  intro t ht hw hwy
  have hnone : ¬(perfWd (dropNaClose s) t).isSome = true := by
    rw [perfWd_isSome_iff]
    exact h t ht hw hwy
  exact Option.not_isSome_iff_eq_none.1 hnone

/-- Witness for the amended C5: with a Friday 2024-01-05 immediately followed
by the series' first Monday 2024-01-08, the (monday, 2024) cell is missing. -/
theorem c5_weekday_pivot_amended_witness :
    cellWeekday (dropNaClose fridayMondaySeries) 0 2024 = none ∧
    wdAt (dropNaClose fridayMondaySeries) 0 = 4 ∧
    wdAt (dropNaClose fridayMondaySeries) 1 = 0 := by
  refine ⟨(c5_weekday_pivot_amended fridayMondaySeries).2 0 2024 (by decide),
    by decide, by decide⟩

lemma dropNaClose_close_pos (s : List Bar) (hpos : PosSeries s) {b : Bar}
    (hb : b ∈ dropNaClose s) : 0 < clo b := by
  obtain ⟨hbs, hsome⟩ := List.mem_filter.1 hb
  have hsome' : b.close.isSome := hsome
  obtain ⟨c, hc⟩ := Option.isSome_iff_exists.1 hsome'
  obtain ⟨i, hi⟩ := List.mem_iff_get.1 hbs
  have hcc : closeCol s i.1 = some c := by
    rw [closeCol, barAt_eq_get s i.1 i.2, hi, hc]
  have hcpos := (hpos i.1 i.2).2.2.2 c hcc
  simpa [clo, hc] using hcpos

lemma jan23Series_pos : PosSeries jan23Series := by
  intro t ht
  have hlen : jan23Series.length = 2 := rfl
  rw [hlen] at ht
  interval_cases t <;>
    refine ⟨fun a ha => ?_, fun a ha => ?_, fun a ha => ?_, fun a ha => ?_⟩ <;>
    · simp [openCol, highCol, lowCol, closeCol, barAt, jan23Series, mkBar] at ha
      norm_num [← ha]

/-- Claim C6: the monthly pivot's cell for (year, month) is the percent
change from the group's first close to its last close; the two-bar January
2023 series (closes 100 then 110) yields the (Jan, 2023) cell 10.0; a month
with a single observation yields 0.0 rather than missing; an empty group
yields a missing cell; and the pivot always carries all 12 month rows in
fixed calendar order with the year columns ascending. -/
theorem c6_monthly_pivot :
    (∀ (s : List Bar) (P : MonthlyPivot), SortedSeries s → PosSeries s →
      computeMonthlyPerformance s = some P →
      P.rows = ["Jan", "Feb", "Mar", "Apr", "May", "Jun", "Jul", "Aug",
        "Sep", "Oct", "Nov", "Dec"] ∧
      P.years.Sorted (· < ·) ∧
      (∀ y m b bs, monthGroup (dropNaClose s) y m = b :: bs →
        P.cell y m = some ((clo (bs.getLastD b) / clo b - 1) * 100)) ∧
      (∀ y m b, monthGroup (dropNaClose s) y m = [b] → P.cell y m = some 0) ∧
      (∀ y m, monthGroup (dropNaClose s) y m = [] → P.cell y m = none)) ∧
    (computeMonthlyPerformance jan23Series).map (fun P => P.cell 2023 1) =
      some (some 10) ∧
    (computeMonthlyPerformance [mkBar 2023 1 2 100 101 99 100]).map
      (fun P => P.cell 2023 1) = some (some 0) := by
  refine ⟨?_, ?_, ?_⟩
  · intro s P hs hpos hP
    unfold computeMonthlyPerformance at hP
    split at hP
    · exact absurd hP (by simp)
    · split at hP
      · exact absurd hP (by simp)
      · obtain rfl := Option.some_inj.1 hP
        refine ⟨rfl, ?_, ?_, ?_, ?_⟩
        · show List.Sorted (· < ·) (yearsOf (dropNaClose s))
          exact Finset.sort_sorted_lt _
        · intro y m b bs hg
          show cellMonthly (dropNaClose s) y m = _
          simp [cellMonthly, hg]
        · intro y m b hg
          have hbmem : b ∈ dropNaClose s := by
            have : b ∈ monthGroup (dropNaClose s) y m := by
              rw [hg]
              exact List.mem_singleton_self b
            exact List.mem_of_mem_filter this
          have hbpos := dropNaClose_close_pos s hpos hbmem
          show cellMonthly (dropNaClose s) y m = some 0
          simp [cellMonthly, hg]
          rw [div_self hbpos.ne']
          norm_num
        · intro y m hg
          show cellMonthly (dropNaClose s) y m = none
          simp [cellMonthly, hg]
  · norm_num [computeMonthlyPerformance, cellMonthly, monthGroup, dropNaClose,
      jan23Series, mkBar, clo]
  · norm_num [computeMonthlyPerformance, cellMonthly, monthGroup, dropNaClose,
      mkBar, clo]

/-- Witness for C6 on the concrete January-2023 series: the pivot exists with
the fixed 12 month rows and strictly ascending year columns. -/
theorem c6_monthly_pivot_witness :
    ∃ P, computeMonthlyPerformance jan23Series = some P ∧
      P.rows = ["Jan", "Feb", "Mar", "Apr", "May", "Jun", "Jul", "Aug",
        "Sep", "Oct", "Nov", "Dec"] ∧ P.years.Sorted (· < ·) := by
  cases hc : computeMonthlyPerformance jan23Series with
  | none =>
    exact absurd hc
      (by simp [computeMonthlyPerformance, dropNaClose, jan23Series, mkBar])
  | some P =>
    have h := c6_monthly_pivot.1 jan23Series P
      (by simp only [SortedSeries]; decide) jan23Series_pos hc
    exact ⟨P, rfl, h.1, h.2.1⟩
